import Mathlib

/-!
# Verification of the BPE tokenizer training utilities

Shallow embedding of `cs336_basics` (BPE tokenizer training orchestration,
serialization, and analysis utilities) together with a model of the training
core described by the specification.

Conventions of the embedding:
* Python `bytes` is `List (Fin 256)` (a byte string).
* Python `str` is `List Nat` (a sequence of Unicode code points).
* Python dicts are association lists in insertion order; dict keys are unique.
* Fallible operations return `Option`/`Except`.
-/

namespace CS336

/-- A Python byte string: a list of byte values. -/
abbrev ByteStr := List (Fin 256)

/-- A Python string, as its sequence of Unicode code points. -/
abbrev PyStr := List Nat

/-- Code points of a Lean string literal, used to spell out concrete text
(headers, file names) appearing in the source. -/
def strCodes (s : String) : PyStr := s.data.map Char.toNat

/-! ## The GPT-2 byte-to-unicode table

`gpt2_bytes_to_unicode` (from `tests.common`, not part of `src/`).
Modelled from the spec: "a fixed byte-to-unicode surrogate-escape table
(every raw byte value maps to a unique printable Unicode code point)" —
this is the standard GPT-2 table: bytes in [33,126] ∪ [161,172] ∪ [174,255]
map to themselves, and the remaining bytes map, in increasing byte order,
to 256, 257, 258, …  -/

/-- Whether byte value `b` is in the directly-printable ranges of the GPT-2
byte-to-unicode table. -/
def gpt2Direct (b : Nat) : Bool :=
  (33 ≤ b && b ≤ 126) || (161 ≤ b && b ≤ 172) || (174 ≤ b && b ≤ 255)

/-- Number of non-direct byte values strictly below `b`; the GPT-2 table sends
the `n`-th non-direct byte to code point `256 + n`. -/
def gpt2Shift (b : Nat) : Nat :=
  ((Finset.range b).filter (fun x => ¬ gpt2Direct x)).card

/-- The GPT-2 byte-to-unicode map on a single byte. -/
def gpt2ByteToUnicode (b : Fin 256) : Nat :=
  if gpt2Direct b.val then b.val else 256 + gpt2Shift b.val

/-- The GPT-2 encoding of a whole byte string: each byte through the table. -/
def gpt2Encode (t : ByteStr) : PyStr := t.map gpt2ByteToUnicode

/-- A code point is printable in the sense relevant here: not a C0/C1 control
character, not a space character, not the soft hyphen. -/
def printableCodePoint (c : Nat) : Prop :=
  33 ≤ c ∧ ¬ (127 ≤ c ∧ c ≤ 160) ∧ c ≠ 173

lemma gpt2Shift_mono {b₁ b₂ : Nat} (h : b₁ ≤ b₂) : gpt2Shift b₁ ≤ gpt2Shift b₂ := by
  unfold gpt2Shift
  exact Finset.card_le_card (Finset.filter_subset_filter _ (Finset.range_subset.mpr h))

lemma gpt2Shift_succ_of_not_direct {b : Nat} (h : gpt2Direct b = false) :
    gpt2Shift (b + 1) = gpt2Shift b + 1 := by
  unfold gpt2Shift
  rw [Finset.range_succ, Finset.filter_insert]
  simp only [h, Bool.false_eq_true, not_false_iff, if_pos]
  rw [Finset.card_insert_of_not_mem]
  simp

lemma gpt2Shift_strict_mono {b₁ b₂ : Nat} (hb : b₁ < b₂)
    (h : gpt2Direct b₁ = false) : gpt2Shift b₁ < gpt2Shift b₂ := by
  have h1 : gpt2Shift b₁ + 1 = gpt2Shift (b₁ + 1) := (gpt2Shift_succ_of_not_direct h).symm
  have h2 : gpt2Shift (b₁ + 1) ≤ gpt2Shift b₂ := gpt2Shift_mono hb
  omega

lemma gpt2Direct_bounds {b : Nat} (h : gpt2Direct b = true) :
    33 ≤ b ∧ b ≤ 255 ∧ ¬ (127 ≤ b ∧ b ≤ 160) ∧ b ≠ 173 := by
  unfold gpt2Direct at h
  simp only [Bool.or_eq_true, Bool.and_eq_true, decide_eq_true_eq] at h
  omega

/-- The GPT-2 byte-to-unicode map is injective: distinct bytes get distinct
code points. -/
theorem gpt2ByteToUnicode_injective : Function.Injective gpt2ByteToUnicode := by
  intro b₁ b₂ h
  unfold gpt2ByteToUnicode at h
  by_cases h₁ : gpt2Direct b₁.val = true <;> by_cases h₂ : gpt2Direct b₂.val = true
  · rw [if_pos h₁, if_pos h₂] at h
    exact Fin.ext h
  · rw [if_pos h₁, if_neg (by simp [h₂])] at h
    have := (gpt2Direct_bounds h₁).2.1
    omega
  · rw [if_neg (by simp [h₁]), if_pos h₂] at h
    have := (gpt2Direct_bounds h₂).2.1
    omega
  · rw [if_neg (by simp [h₁]), if_neg (by simp [h₂])] at h
    have hs : gpt2Shift b₁.val = gpt2Shift b₂.val := by omega
    by_contra hne
    have hne' : b₁.val ≠ b₂.val := fun hv => hne (Fin.ext hv)
    rcases Nat.lt_or_ge b₁.val b₂.val with hlt | hge
    · have := gpt2Shift_strict_mono hlt (Bool.not_eq_true _ ▸ h₁)
      omega
    · have hlt : b₂.val < b₁.val := by omega
      have := gpt2Shift_strict_mono hlt (Bool.not_eq_true _ ▸ h₂)
      omega

/-- Every GPT-2-mapped code point is printable. -/
theorem gpt2ByteToUnicode_printable (b : Fin 256) :
    printableCodePoint (gpt2ByteToUnicode b) := by
  unfold gpt2ByteToUnicode printableCodePoint
  by_cases h : gpt2Direct b.val = true
  · rw [if_pos h]
    have := gpt2Direct_bounds h
    omega
  · rw [if_neg (by simp [h])]
    omega

/-- Encoding whole byte strings through the table is injective (losslessness
of the printable representation). -/
theorem gpt2Encode_injective : Function.Injective gpt2Encode :=
  fun _ _ h => List.map_injective_iff.mpr gpt2ByteToUnicode_injective h

/-! ## Decimal numerals: Python `str(k)` and `int(k)` on non-negative ints -/

/-- Python `str(k)` for a non-negative integer: decimal digits, most
significant first, as code points. -/
def pyStrOfNat (n : Nat) : PyStr :=
  if n = 0 then [48] else ((Nat.digits 10 n).map (fun d => d + 48)).reverse

/-- Code point of a decimal digit back to its value, if it is one. -/
def decDigitVal (c : Nat) : Option Nat :=
  if 48 ≤ c ∧ c ≤ 57 then some (c - 48) else none

/-- Python `int(s)` on a string of decimal digits (no sign, no spaces):
`none` models the `ValueError` on anything else. -/
def pyIntOfStr (s : PyStr) : Option Nat :=
  match s with
  | [] => none
  | _ => do
    let ds ← s.mapM decDigitVal
    pure (Nat.ofDigits 10 ds.reverse)

lemma decDigitVal_code {d : Nat} (h : d < 10) : decDigitVal (d + 48) = some d := by
  unfold decDigitVal
  rw [if_pos (by omega)]
  simp only [Option.some.injEq]
  omega

lemma mapM_decDigitVal_of_digits (ds : List Nat) (h : ∀ d ∈ ds, d < 10) :
    (ds.map (fun d => d + 48)).mapM decDigitVal = some ds := by
  induction ds with
  | nil => rfl
  | cons d ds ih =>
    have hd : d < 10 := h d (List.mem_cons_self d ds)
    have hds := ih (fun x hx => h x (List.mem_cons_of_mem d hx))
    simp only [List.map_cons, List.mapM_cons, decDigitVal_code hd, hds, Option.pure_def,
      Option.bind_eq_bind, Option.some_bind]

lemma pyIntOfStr_cons (c : Nat) (cs : PyStr) :
    pyIntOfStr (c :: cs) =
      ((c :: cs).mapM decDigitVal).bind (fun ds => some (Nat.ofDigits 10 ds.reverse)) := rfl

/-- Round trip `int(str(n)) = n` for the decimal numerals. -/
theorem pyIntOfStr_pyStrOfNat (n : Nat) : pyIntOfStr (pyStrOfNat n) = some n := by
  by_cases h0 : n = 0
  · subst h0; rfl
  · have hrw : pyStrOfNat n = ((Nat.digits 10 n).reverse).map (fun d => d + 48) := by
      unfold pyStrOfNat
      rw [if_neg h0, List.map_reverse]
    have hne : (Nat.digits 10 n).reverse ≠ [] := by
      simp [Nat.digits_ne_nil_iff_ne_zero, h0]
    have hlt : ∀ d ∈ (Nat.digits 10 n).reverse, d < 10 := fun d hd =>
      Nat.digits_lt_base (by omega) (List.mem_reverse.mp hd)
    have hmapM := mapM_decDigitVal_of_digits _ hlt
    rcases hd : (Nat.digits 10 n).reverse with _ | ⟨c, cs⟩
    · exact absurd hd hne
    · rw [hd, List.map_cons] at hmapM
      rw [hrw, hd, List.map_cons, pyIntOfStr_cons, hmapM, Option.some_bind, ← hd,
        List.reverse_reverse, Nat.ofDigits_digits]

/-- Python `str` is injective on non-negative integers (needed for the key set of
the GPT-2 vocab dict). -/
theorem pyStrOfNat_injective : Function.Injective pyStrOfNat := by
  intro a b h
  have := pyIntOfStr_pyStrOfNat a
  rw [h, pyIntOfStr_pyStrOfNat b] at this
  exact (Option.some_injective _ this).symm

/-! ## Hex serialization: Python `bytes.hex()` and `bytes.fromhex()` -/

/-- Code point of one lowercase hex digit (value < 16). -/
def hexDigitCode (d : Nat) : Nat :=
  if d < 10 then d + 48 else d + 87

/-- Value of a hex-digit code point (Python `fromhex` accepts both cases). -/
def hexDigitVal (c : Nat) : Option (Fin 16) :=
  if h : 48 ≤ c ∧ c ≤ 57 then some ⟨c - 48, by omega⟩
  else if h : 97 ≤ c ∧ c ≤ 102 then some ⟨c - 87, by omega⟩
  else if h : 65 ≤ c ∧ c ≤ 70 then some ⟨c - 55, by omega⟩
  else none

/-- Python `bytes.hex()`: two lowercase hex digits per byte. -/
def bytesHex (t : ByteStr) : PyStr :=
  t.flatMap (fun b => [hexDigitCode (b.val / 16), hexDigitCode (b.val % 16)])

/-- Python `bytes.fromhex` (on strings without separator spaces): pairs of
hex digits; `none` models the `ValueError` on odd length or a non-hex
character. -/
def bytesFromHex : PyStr → Option ByteStr
  | [] => some []
  | [_] => none
  | c₁ :: c₂ :: rest => do
    let d₁ ← hexDigitVal c₁
    let d₂ ← hexDigitVal c₂
    let tail ← bytesFromHex rest
    pure (⟨16 * d₁.val + d₂.val, by omega⟩ :: tail)

lemma hexDigitVal_hexDigitCode {d : Nat} (h : d < 16) :
    hexDigitVal (hexDigitCode d) = some ⟨d, h⟩ := by
  unfold hexDigitVal hexDigitCode
  by_cases hd : d < 10
  · rw [if_pos hd, dif_pos (by omega)]
    simp only [Option.some.injEq, Fin.mk.injEq]
    omega
  · rw [if_neg hd, dif_neg (by omega), dif_pos (by omega)]
    simp only [Option.some.injEq, Fin.mk.injEq]
    omega

lemma bytesHex_cons (b : Fin 256) (t : ByteStr) :
    bytesHex (b :: t) =
      hexDigitCode (b.val / 16) :: hexDigitCode (b.val % 16) :: bytesHex t := rfl

/-- Round trip `fromhex(t.hex()) = t` for the hex serialization. -/
theorem bytesFromHex_bytesHex (t : ByteStr) : bytesFromHex (bytesHex t) = some t := by
  induction t with
  | nil => rfl
  | cons b t ih =>
    have h₁ : b.val / 16 < 16 := by omega
    have h₂ : b.val % 16 < 16 := by omega
    rw [bytesHex_cons]
    simp only [bytesFromHex, hexDigitVal_hexDigitCode h₁, hexDigitVal_hexDigitCode h₂, ih,
      Option.bind_eq_bind, Option.some_bind, Option.pure_def, Option.some.injEq,
      List.cons.injEq, and_true]
    refine Fin.ext ?_
    show 16 * (b.val / 16) + b.val % 16 = b.val
    omega

/-! ## Text utilities: lines, `str.strip()`, `str.split()` -/

/-- Split a text into its lines at newline (code point 10); a text ending in
a newline contributes a final empty fragment (the usual "split on separator"
semantics). -/
def splitNl (s : PyStr) : List PyStr := s.splitOn 10

lemma splitNl_append_of_noNl (a : PyStr) (r : PyStr) (h : ∀ c ∈ a, c ≠ 10) :
    splitNl (a ++ 10 :: r) = a :: splitNl r := by
  unfold splitNl List.splitOn
  exact List.splitOnP_first (· == 10) a (by simpa using h) 10 (by simp) r

lemma splitNl_of_noNl (a : PyStr) (h : ∀ c ∈ a, c ≠ 10) : splitNl a = [a] := by
  unfold splitNl List.splitOn
  exact List.splitOnP_eq_single (· == 10) a (by simpa using h)

/-- Python whitespace characters relevant to `strip`/`split` on this data. -/
def isPyWs (c : Nat) : Bool :=
  c = 32 || c = 9 || c = 10 || c = 11 || c = 12 || c = 13

/-- Drop leading whitespace. -/
def stripLeft : PyStr → PyStr
  | [] => []
  | c :: r => if isPyWs c then stripLeft r else c :: r

/-- Python `str.strip()`: drop leading and trailing whitespace. -/
def pyStrip (s : PyStr) : PyStr :=
  (stripLeft (stripLeft s).reverse).reverse

/-- Python `str.split()` (no separator): split on whitespace runs, dropping
empty pieces. `acc` carries the current piece reversed. -/
def splitWsAux : PyStr → PyStr → List PyStr
  | [], acc => if acc = [] then [] else [acc.reverse]
  | c :: rest, acc =>
    if isPyWs c then
      if acc = [] then splitWsAux rest []
      else acc.reverse :: splitWsAux rest []
    else splitWsAux rest (c :: acc)

/-- Python `str.split()` with no arguments. -/
def pySplitWs (s : PyStr) : List PyStr := splitWsAux s []

lemma splitWsAux_append_of_noWs (w : PyStr) (hw : ∀ c ∈ w, isPyWs c = false)
    (rest acc : PyStr) : splitWsAux (w ++ rest) acc = splitWsAux rest (w.reverse ++ acc) := by
  induction w generalizing acc with
  | nil => simp
  | cons c w ih =>
    have hc : isPyWs c = false := hw c (List.mem_cons_self c w)
    have hw' := fun x hx => hw x (List.mem_cons_of_mem c hx)
    simp only [List.cons_append, splitWsAux, hc, Bool.false_eq_true, if_false]
    show splitWsAux (w ++ rest) (c :: acc) = splitWsAux rest ((c :: w).reverse ++ acc)
    rw [ih hw']
    simp [List.append_assoc]

lemma pySplitWs_of_noWs (w : PyStr) (hne : w ≠ []) (hw : ∀ c ∈ w, isPyWs c = false) :
    pySplitWs w = [w] := by
  unfold pySplitWs
  have := splitWsAux_append_of_noWs w hw [] []
  rw [List.append_nil] at this
  rw [this]
  simp only [splitWsAux, List.append_nil, List.reverse_eq_nil_iff, if_neg hne,
    List.reverse_reverse]

/-- Splitting a line of the form `w₁ ++ " " ++ w₂` with both pieces
nonempty and whitespace-free gives exactly the two pieces. -/
lemma pySplitWs_pair (w₁ w₂ : PyStr) (h₁ : w₁ ≠ []) (h₂ : w₂ ≠ [])
    (hw₁ : ∀ c ∈ w₁, isPyWs c = false) (hw₂ : ∀ c ∈ w₂, isPyWs c = false) :
    pySplitWs (w₁ ++ 32 :: w₂) = [w₁, w₂] := by
  unfold pySplitWs
  rw [splitWsAux_append_of_noWs w₁ hw₁]
  have hws : isPyWs 32 = true := rfl
  simp only [splitWsAux, hws, if_true, List.append_nil, List.reverse_eq_nil_iff,
    if_neg h₁, List.reverse_reverse]
  have := splitWsAux_append_of_noWs w₂ hw₂ [] []
  rw [List.append_nil] at this
  rw [this]
  simp only [splitWsAux, List.append_nil, List.reverse_eq_nil_iff, if_neg h₂,
    List.reverse_reverse]

lemma stripLeft_of_head_not_ws (c : Nat) (r : PyStr) (h : isPyWs c = false) :
    stripLeft (c :: r) = c :: r := by
  simp [stripLeft, h]

/-- Python `strip()` is the identity on a string whose first and last characters are
not whitespace. -/
lemma pyStrip_of_ends (c d : Nat) (mid : PyStr) (hc : isPyWs c = false)
    (hd : isPyWs d = false) : pyStrip (c :: mid ++ [d]) = c :: mid ++ [d] := by
  unfold pyStrip
  rw [show ((c :: mid ++ [d] : PyStr)) = c :: (mid ++ [d]) from rfl]
  rw [stripLeft_of_head_not_ws c (mid ++ [d]) hc]
  simp only [List.reverse_cons, List.reverse_append, List.reverse_nil, List.nil_append,
    List.singleton_append, List.cons_append]
  rw [stripLeft_of_head_not_ws d (mid.reverse ++ [c]) hd]
  simp

/-! ## Strict UTF-8 decoding (Python `bytes.decode` with the default codec):
rejects truncated sequences, stray continuation bytes, overlong encodings,
surrogates and code points above U+10FFFF. -/

/-- A UTF-8 continuation byte. -/
def isCont (b : Fin 256) : Bool := 128 ≤ b.val && b.val ≤ 191

/-- Fuel-driven strict UTF-8 decoder; the fuel only bounds recursion depth
and is in surplus whenever it exceeds the input length. -/
def utf8DecodeFuel : Nat → List (Fin 256) → Option (List Nat)
  | 0, _ => none
  | _ + 1, [] => some []
  | f + 1, b :: rest =>
    if b.val ≤ 127 then
      (utf8DecodeFuel f rest).map (b.val :: ·)
    else if 194 ≤ b.val && b.val ≤ 223 then
      match rest with
      | c₁ :: r =>
        if isCont c₁ then
          (utf8DecodeFuel f r).map (((b.val - 192) * 64 + (c₁.val - 128)) :: ·)
        else none
      | [] => none
    else if 224 ≤ b.val && b.val ≤ 239 then
      match rest with
      | c₁ :: c₂ :: r =>
        let lo₁ : Nat := if b.val = 224 then 160 else 128
        let hi₁ : Nat := if b.val = 237 then 159 else 191
        if (lo₁ ≤ c₁.val && c₁.val ≤ hi₁) && isCont c₂ then
          (utf8DecodeFuel f r).map
            (((b.val - 224) * 4096 + (c₁.val - 128) * 64 + (c₂.val - 128)) :: ·)
        else none
      | _ => none
    else if 240 ≤ b.val && b.val ≤ 244 then
      match rest with
      | c₁ :: c₂ :: c₃ :: r =>
        let lo₁ : Nat := if b.val = 240 then 144 else 128
        let hi₁ : Nat := if b.val = 244 then 143 else 191
        if (lo₁ ≤ c₁.val && c₁.val ≤ hi₁) && isCont c₂ && isCont c₃ then
          (utf8DecodeFuel f r).map
            (((b.val - 240) * 262144 + (c₁.val - 128) * 4096 +
              (c₂.val - 128) * 64 + (c₃.val - 128)) :: ·)
        else none
      | _ => none
    else none

/-- Python `t.decode('utf-8')` as an `Option`: `none` models
`UnicodeDecodeError`. -/
def utf8Decode (t : ByteStr) : Option (List Nat) := utf8DecodeFuel (t.length + 1) t

/-! ## `analyze_vocab` -/

/-- Python `max(values, key=len)`: the first element of maximal length, as a
left fold keeping the current maximum unless a strictly longer one appears. -/
def pyMaxByLen (x : ByteStr) (l : List ByteStr) : ByteStr :=
  l.foldl (fun acc y => if acc.length < y.length then y else acc) x

lemma pyMaxByLen_mem (x : ByteStr) (l : List ByteStr) :
    pyMaxByLen x l = x ∨ pyMaxByLen x l ∈ l := by
  induction l generalizing x with
  | nil => exact Or.inl rfl
  | cons y l ih =>
    unfold pyMaxByLen at ih ⊢
    rw [List.foldl_cons]
    by_cases hxy : x.length < y.length
    · rw [if_pos hxy]
      rcases ih y with h | h
      · exact Or.inr (by rw [h]; exact List.mem_cons_self y l)
      · exact Or.inr (List.mem_cons_of_mem y h)
    · rw [if_neg hxy]
      rcases ih x with h | h
      · exact Or.inl h
      · exact Or.inr (List.mem_cons_of_mem y h)

lemma pyMaxByLen_le (x : ByteStr) (l : List ByteStr) :
    ∀ y ∈ x :: l, y.length ≤ (pyMaxByLen x l).length := by
  induction l generalizing x with
  | nil =>
    intro y hy
    rcases List.mem_cons.mp hy with h | h
    · exact h ▸ le_refl _
    · exact absurd h (List.not_mem_nil y)
  | cons z l ih =>
    intro y hy
    unfold pyMaxByLen
    rw [List.foldl_cons]
    have step : ∀ w : ByteStr, x.length ≤ (if x.length < z.length then z else x).length ∧
        z.length ≤ (if x.length < z.length then z else x).length := by
      intro _
      by_cases h : x.length < z.length
      · rw [if_pos h]; omega
      · rw [if_neg h]; omega
    rcases List.mem_cons.mp hy with h | h
    · calc y.length = x.length := by rw [h]
        _ ≤ (if x.length < z.length then z else x).length := (step []).1
        _ ≤ _ := ih _ _ (List.mem_cons_self _ _)
    · rcases List.mem_cons.mp h with h' | h'
      · calc y.length = z.length := by rw [h']
          _ ≤ (if x.length < z.length then z else x).length := (step []).2
          _ ≤ _ := ih _ _ (List.mem_cons_self _ _)
      · exact ih _ _ (List.mem_cons_of_mem _ h')

/-- The function `analyze_vocab`: finds the longest token (Python `max(vocab.values(),
key=len)`, first-of-maximal-length) and returns its UTF-8 decoding, or `none`
when it does not decode (the function prints statistics, which the embedding
omits; on an empty vocabulary Python's `max` raises, which the claim
excludes). -/
def analyze_vocab (vocab : List (Nat × ByteStr)) : Option (List Nat) :=
  match vocab.map Prod.snd with
  | [] => none
  | v :: vs => utf8Decode (pyMaxByLen v vs)

/-! ## `save_vocab_and_merges` (bpe_training_utils.py, lines 100–143)

The four files it writes, as values: JSON files at the level of their
ordered key/value entries, `merges.txt` as its full text, and
`merges_raw.txt` as the list of lines the loop writes (each line is written
with a trailing newline, which the reading loop strips again). -/

structure SavedFiles where
  vocabJson : List (PyStr × PyStr)
  mergesTxt : PyStr
  vocabRawJson : List (PyStr × PyStr)
  mergesRawTxt : List PyStr
deriving DecidableEq

/-- The GPT-2-format vocab dict: `vocab_gpt2[str(token_id)] = token_str`. -/
def vocabGpt2Entries (vocab : List (Nat × ByteStr)) : List (PyStr × PyStr) :=
  vocab.map (fun kv => (pyStrOfNat kv.1, gpt2Encode kv.2))

/-- The full text of `merges.txt`: the version header line, then one line
per merge, both tokens through the byte encoder, space-separated. -/
def mergesTxtContent (merges : List (ByteStr × ByteStr)) : PyStr :=
  (strCodes "#version: 0.2" ++ [10]) ++
    (merges.map (fun p => gpt2Encode p.1 ++ 32 :: (gpt2Encode p.2 ++ [10]))).flatten

/-- The raw vocab dict: `{str(k): v.hex()}`. -/
def vocabRawEntries (vocab : List (Nat × ByteStr)) : List (PyStr × PyStr) :=
  vocab.map (fun kv => (pyStrOfNat kv.1, bytesHex kv.2))

/-- The lines of `merges_raw.txt`: `f"{token1.hex()} {token2.hex()}"`. -/
def mergesRawLines (merges : List (ByteStr × ByteStr)) : List PyStr :=
  merges.map (fun p => bytesHex p.1 ++ 32 :: bytesHex p.2)

/-- The function `save_vocab_and_merges`: the contents of the four files written. -/
def save_vocab_and_merges (vocab : List (Nat × ByteStr))
    (merges : List (ByteStr × ByteStr)) : SavedFiles :=
  { vocabJson := vocabGpt2Entries vocab
    mergesTxt := mergesTxtContent merges
    vocabRawJson := vocabRawEntries vocab
    mergesRawTxt := mergesRawLines merges }

/-! ## `load_tokenizer` (compare_tokenizers.py, lines 14–31) -/

/-- One entry of the raw vocab file back to `(int(k), bytes.fromhex(v))`. -/
def parseVocabRawEntry (kv : PyStr × PyStr) : Option (Nat × ByteStr) := do
  let k ← pyIntOfStr kv.1
  let v ← bytesFromHex kv.2
  pure (k, v)

/-- The merge-loading loop: skip lines that strip to empty, otherwise
`token1_hex, token2_hex = line.strip().split()` (a non-2-way split raises,
modelled as `none`) and hex-decode both sides. -/
def loadMergesRawLines : List PyStr → Option (List (ByteStr × ByteStr))
  | [] => some []
  | line :: rest =>
    if pyStrip line = [] then loadMergesRawLines rest
    else
      match pySplitWs (pyStrip line) with
      | [h₁, h₂] => do
        let t₁ ← bytesFromHex h₁
        let t₂ ← bytesFromHex h₂
        let ms ← loadMergesRawLines rest
        pure ((t₁, t₂) :: ms)
      | _ => none

/-- The function `load_tokenizer`: rebuild `(vocab, merges)` from the two raw files. -/
def load_tokenizer (files : SavedFiles) :
    Option (List (Nat × ByteStr) × List (ByteStr × ByteStr)) := do
  let vocab ← files.vocabRawJson.mapM parseVocabRawEntry
  let merges ← loadMergesRawLines files.mergesRawTxt
  pure (vocab, merges)

/-! ## `fix_vocab_json` (fix_vocab_json.py, lines 15–48): the dict it
rebuilds from the raw vocab file. -/

/-- The GPT-2 dict `fix_vocab_json` reconstructs: for each raw entry,
`bytes.fromhex` then the byte encoder, key unchanged (`none` models the
exception `bytes.fromhex` raises on a non-hex value). -/
def fix_vocab_json (raw : List (PyStr × PyStr)) : Option (List (PyStr × PyStr)) :=
  raw.mapM (fun kv => (bytesFromHex kv.2).map (fun tb => (kv.1, gpt2Encode tb)))

/-! ### Character-class facts about the serialized text -/

lemma hexDigitCode_range {d : Nat} (h : d < 16) :
    (48 ≤ hexDigitCode d ∧ hexDigitCode d ≤ 57) ∨
      (97 ≤ hexDigitCode d ∧ hexDigitCode d ≤ 102) := by
  unfold hexDigitCode
  by_cases hd : d < 10
  · rw [if_pos hd]; omega
  · rw [if_neg hd]; omega

lemma bytesHex_chars (t : ByteStr) :
    ∀ c ∈ bytesHex t, (48 ≤ c ∧ c ≤ 57) ∨ (97 ≤ c ∧ c ≤ 102) := by
  intro c hc
  unfold bytesHex at hc
  rw [List.mem_flatMap] at hc
  obtain ⟨b, _, hmem⟩ := hc
  have h₁ : b.val / 16 < 16 := by omega
  have h₂ : b.val % 16 < 16 := by omega
  simp only [List.mem_cons, List.not_mem_nil, or_false] at hmem
  rcases hmem with rfl | rfl
  · exact hexDigitCode_range h₁
  · exact hexDigitCode_range h₂

lemma hexChar_not_ws {c : Nat}
    (h : (48 ≤ c ∧ c ≤ 57) ∨ (97 ≤ c ∧ c ≤ 102)) : isPyWs c = false := by
  simp only [isPyWs, Bool.or_eq_false_iff, decide_eq_false_iff_not]
  omega

lemma bytesHex_noWs (t : ByteStr) : ∀ c ∈ bytesHex t, isPyWs c = false :=
  fun c hc => hexChar_not_ws (bytesHex_chars t c hc)

lemma bytesHex_ne_nil {t : ByteStr} (h : t ≠ []) : bytesHex t ≠ [] := by
  cases t with
  | nil => exact absurd rfl h
  | cons b t => rw [bytesHex_cons]; exact List.cons_ne_nil _ _

/-- Characters of a GPT-2-encoded token are never a newline. -/
lemma gpt2Encode_noNl (t : ByteStr) : ∀ c ∈ gpt2Encode t, c ≠ 10 := by
  intro c hc
  unfold gpt2Encode at hc
  obtain ⟨b, _, rfl⟩ := List.mem_map.mp hc
  have := (gpt2ByteToUnicode_printable b).1
  omega

/-! ### Round trips through the raw files -/

lemma mapM_parseVocabRawEntry (vocab : List (Nat × ByteStr)) :
    (vocabRawEntries vocab).mapM parseVocabRawEntry = some vocab := by
  induction vocab with
  | nil => rfl
  | cons kv vocab ih =>
    simp only [vocabRawEntries, List.map_cons, List.mapM_cons, parseVocabRawEntry,
      pyIntOfStr_pyStrOfNat, bytesFromHex_bytesHex, Option.pure_def, Option.bind_eq_bind,
      Option.some_bind]
    rw [show (vocab.map (fun kv => (pyStrOfNat kv.1, bytesHex kv.2))) = vocabRawEntries vocab
      from rfl, ih]
    rfl

lemma loadMergesRawLines_mergesRawLines (merges : List (ByteStr × ByteStr))
    (h : ∀ p ∈ merges, p.1 ≠ [] ∧ p.2 ≠ []) :
    loadMergesRawLines (mergesRawLines merges) = some merges := by
  induction merges with
  | nil => rfl
  | cons p merges ih =>
    obtain ⟨h₁, h₂⟩ := h p (List.mem_cons_self p merges)
    have ih' := ih (fun q hq => h q (List.mem_cons_of_mem p hq))
    obtain ⟨c, r₁, hc⟩ := List.exists_cons_of_ne_nil (bytesHex_ne_nil h₁)
    obtain hcat := (List.eq_nil_or_concat (bytesHex p.2)).resolve_left (bytesHex_ne_nil h₂)
    obtain ⟨i₂, d, hd⟩ := hcat
    rw [List.concat_eq_append] at hd
    have hcws : isPyWs c = false := by
      apply bytesHex_noWs p.1; rw [hc]; exact List.mem_cons_self c r₁
    have hdws : isPyWs d = false := by
      apply bytesHex_noWs p.2; rw [hd]; exact List.mem_append_right i₂ (List.mem_cons_self d [])
    have hline : bytesHex p.1 ++ 32 :: bytesHex p.2 = c :: (r₁ ++ 32 :: i₂) ++ [d] := by
      rw [hc, hd]; simp
    have hstrip : pyStrip (bytesHex p.1 ++ 32 :: bytesHex p.2)
        = bytesHex p.1 ++ 32 :: bytesHex p.2 := by
      rw [hline]; exact pyStrip_of_ends c d (r₁ ++ 32 :: i₂) hcws hdws
    have hstripne : pyStrip (bytesHex p.1 ++ 32 :: bytesHex p.2) ≠ [] := by
      rw [hstrip]; exact List.append_ne_nil_of_left_ne_nil (bytesHex_ne_nil h₁) _
    have hsplit : pySplitWs (pyStrip (bytesHex p.1 ++ 32 :: bytesHex p.2))
        = [bytesHex p.1, bytesHex p.2] := by
      rw [hstrip]
      exact pySplitWs_pair _ _ (bytesHex_ne_nil h₁) (bytesHex_ne_nil h₂)
        (bytesHex_noWs p.1) (bytesHex_noWs p.2)
    simp only [mergesRawLines, List.map_cons, loadMergesRawLines, if_neg hstripne, hsplit,
      bytesFromHex_bytesHex, Option.bind_eq_bind, Option.some_bind]
    rw [show (merges.map (fun p => bytesHex p.1 ++ 32 :: bytesHex p.2)) = mergesRawLines merges
      from rfl, ih']
    rfl

/-! ## The BPE training core

`run_train_bpe` lives in `tests/adapters`, which is not part of `src/`;
this whole section is *Modelled from the spec* (§3–§4.5): segments are
sequences of symbols (byte strings) with occurrence counts, pair frequencies
are exact recounts over the current segments (the spec's §8 consistency
property makes this the reference semantics of the incremental index), the
selector takes the maximum-frequency pair breaking ties towards the
lexicographically greatest pair of byte values, and each merge step rewrites
every occurrence of the chosen pair by a single left-to-right scan. -/

/-- A segment: an ordered sequence of symbols (byte-string values). -/
abbrev Segment := List ByteStr

/-- Adjacent symbol pairs of a segment, left to right, with multiplicity. -/
def pairsOf : Segment → List (ByteStr × ByteStr)
  | x :: y :: rest => (x, y) :: pairsOf (y :: rest)
  | _ => []

/-- Aggregate frequency of a pair: sum over segments of
`count × (occurrences inside the segment)`. -/
def pairFreq (segs : List (Segment × Nat)) (p : ByteStr × ByteStr) : Nat :=
  (segs.map (fun sc => sc.2 * ((pairsOf sc.1).count p))).sum

/-- Lexicographic strict order on byte-string values. -/
def bytesLt : ByteStr → ByteStr → Bool
  | [], [] => false
  | [], _ :: _ => true
  | _ :: _, [] => false
  | a :: as, b :: bs =>
    if a.val < b.val then true
    else if b.val < a.val then false
    else bytesLt as bs

/-- Lexicographic strict order on pairs of byte strings (as 2-tuples). -/
def pairLt (p q : ByteStr × ByteStr) : Bool :=
  if bytesLt p.1 q.1 then true
  else if bytesLt q.1 p.1 then false
  else bytesLt p.2 q.2

/-- Whether `q` beats `best`: strictly higher frequency, or equal frequency and
lexicographically greater pair (§4.3's tie-break). -/
def betterPair (segs : List (Segment × Nat)) (q best : ByteStr × ByteStr) : Bool :=
  pairFreq segs best < pairFreq segs q ||
    (pairFreq segs q = pairFreq segs best && pairLt best q)

/-- Merge Selector (§4.3): the maximum-frequency pair under the tie-break,
or no pair when none occurs or the best frequency is below 2 (§3: training
stops early when nothing is left worth merging). -/
def selectPair (segs : List (Segment × Nat)) : Option (ByteStr × ByteStr) :=
  match (segs.map (fun sc => pairsOf sc.1)).flatten with
  | [] => none
  | p :: ps =>
    let best := ps.foldl (fun acc q => if betterPair segs q acc then q else acc) p
    if 2 ≤ pairFreq segs best then some best else none

/-- Incremental Updater (§4.4) on one segment: replace each adjacent
occurrence of `(a, b)` by the concatenated symbol in a single left-to-right
scan (overlaps resolved leftmost-first). -/
def applyMerge (a b : ByteStr) : Segment → Segment
  | [] => []
  | [x] => [x]
  | x :: y :: rest =>
    if x = a ∧ y = b then (a ++ b) :: applyMerge a b rest
    else x :: applyMerge a b (y :: rest)

/-- Full training state (§4.5): vocabulary (list position = token id),
ordered merge records, and the current segments. -/
structure BpeState where
  vocab : List ByteStr
  merges : List (ByteStr × ByteStr)
  segments : List (Segment × Nat)
deriving DecidableEq

/-- State `INITIALIZING` (§3, §4.5): 256 single-byte tokens in fixed order, then
the special tokens in caller order; every segment starts as single bytes. -/
def initState (segs : List (ByteStr × Nat)) (specials : List ByteStr) : BpeState :=
  { vocab := (List.finRange 256).map (fun b => [b]) ++ specials
    merges := []
    segments := segs.map (fun sc => (sc.1.map (fun b => [b]), sc.2)) }

/-- One `MERGING` step: select a pair, append the merged symbol to the
vocabulary, record the merge, rewrite the segments. `none` signals
exhaustion. -/
def bpeStep (st : BpeState) : Option BpeState :=
  match selectPair st.segments with
  | none => none
  | some p =>
    some { vocab := st.vocab ++ [p.1 ++ p.2]
           merges := st.merges ++ [p]
           segments := st.segments.map (fun sc => (applyMerge p.1 p.2 sc.1, sc.2)) }

/-- The merge loop, bounded by the number of ids still to assign (each step
grows the vocabulary by exactly one, so the bound is exact). -/
def bpeLoop : Nat → BpeState → BpeState
  | 0, st => st
  | n + 1, st =>
    match bpeStep st with
    | none => st
    | some st' => bpeLoop n st'

/-- The errors `run_train_bpe` can raise before doing any training work. -/
inductive TrainError where
  | configError
  | inputUnreadable
deriving DecidableEq

/-- The training input as the orchestration layer sees it: whether the path
exists, whether it can actually be read, and the pretokenized content (the
Segmenter's pretoken-to-count mapping, §4.1; quantifying over it quantifies
over all corpora). -/
structure InputFile where
  fileExists : Bool
  readable : Bool
  segments : List (ByteStr × Nat)
deriving DecidableEq

/-- Modelled from the spec: `run_train_bpe` (tests/adapters, not under
`src/`). Configuration validation (§4.5: a vocab size below
`256 + len(special_tokens)` is fatal before any work) precedes reading the
corpus; an unreadable file raises from inside the call. On success it
returns the dense id-to-bytes vocabulary and the ordered merge list. -/
def run_train_bpe (input : InputFile) (vocab_size : Nat) (specials : List ByteStr) :
    Except TrainError (List (Nat × ByteStr) × List (ByteStr × ByteStr)) :=
  if vocab_size < 256 + specials.length then .error .configError
  else if ¬ input.readable then .error .inputUnreadable
  else
    let st0 := initState input.segments specials
    let st := bpeLoop (vocab_size - st0.vocab.length) st0
    .ok (st.vocab.enum, st.merges)

/-! ## `train_bpe_tokenizer` (bpe_training_utils.py, lines 146–257) -/

/-- How a run of `train_bpe_tokenizer` ends: `sys.exit(1)` on a missing
input file, `sys.exit(1)` from the `except` block when training raises, or
the returned tuple's interesting fields on success. -/
inductive RunOutcome where
  | fatalInputMissing
  | fatalTraining (e : TrainError)
  | success (vocab : List (Nat × ByteStr)) (merges : List (ByteStr × ByteStr))
      (longestDecoded : Option (List Nat))
deriving DecidableEq

/-- Observable effects of one `train_bpe_tokenizer` run. -/
structure RunResult where
  outcome : RunOutcome
  runTrainInvoked : Bool
  filesWritten : Option SavedFiles
deriving DecidableEq

/-- The function `train_bpe_tokenizer`: checks `input_path.exists()` and exits before
training when it fails; otherwise calls `run_train_bpe` inside `try`, and on
success runs `analyze_vocab` and `save_vocab_and_merges`; any exception from
training reaches the `except` block, which exits without writing files. -/
def train_bpe_tokenizer (input : InputFile) (vocab_size : Nat)
    (specials : List ByteStr) : RunResult :=
  if !input.fileExists then
    { outcome := .fatalInputMissing, runTrainInvoked := false, filesWritten := none }
  else
    match run_train_bpe input vocab_size specials with
    | .error e =>
      { outcome := .fatalTraining e, runTrainInvoked := true, filesWritten := none }
    | .ok (vocab, merges) =>
      { outcome := .success vocab merges (analyze_vocab vocab)
        runTrainInvoked := true
        filesWritten := some (save_vocab_and_merges vocab merges) }

/-! ### The vocabulary-size invariant (§3) -/

/-- Invariant `len(vocabulary) == 256 + len(special_tokens) + len(merges)`. -/
def sizeInv (specials : List ByteStr) (st : BpeState) : Prop :=
  st.vocab.length = 256 + specials.length + st.merges.length

lemma initState_vocab_length (segs : List (ByteStr × Nat)) (specials : List ByteStr) :
    (initState segs specials).vocab.length = 256 + specials.length := by
  simp [initState]

lemma initState_sizeInv (segs : List (ByteStr × Nat)) (specials : List ByteStr) :
    sizeInv specials (initState segs specials) := by
  unfold sizeInv
  rw [initState_vocab_length]
  rfl

lemma bpeStep_lengths {st st' : BpeState} (hst : bpeStep st = some st') :
    st'.vocab.length = st.vocab.length + 1 ∧
      st'.merges.length = st.merges.length + 1 := by
  unfold bpeStep at hst
  cases hsel : selectPair st.segments with
  | none => rw [hsel] at hst; exact absurd hst (by simp)
  | some p =>
    rw [hsel] at hst
    injection hst with hst
    subst hst
    simp

lemma bpeStep_sizeInv {sp : List ByteStr} {st st' : BpeState}
    (hst : bpeStep st = some st') (h : sizeInv sp st) : sizeInv sp st' := by
  obtain ⟨hv, hm⟩ := bpeStep_lengths hst
  unfold sizeInv at h ⊢
  omega

lemma bpeLoop_sizeInv {sp : List ByteStr} (n : Nat) {st : BpeState}
    (h : sizeInv sp st) : sizeInv sp (bpeLoop n st) := by
  induction n generalizing st with
  | zero => exact h
  | succ n ih =>
    unfold bpeLoop
    cases hst : bpeStep st with
    | none => exact h
    | some st' => exact ih (bpeStep_sizeInv hst h)

lemma bpeLoop_merges_le (n : Nat) (st : BpeState) :
    (bpeLoop n st).merges.length ≤ st.merges.length + n := by
  induction n generalizing st with
  | zero => simp [bpeLoop]
  | succ n ih =>
    unfold bpeLoop
    cases hst : bpeStep st with
    | none =>
      show st.merges.length ≤ st.merges.length + (n + 1)
      omega
    | some st' =>
      show (bpeLoop n st').merges.length ≤ st.merges.length + (n + 1)
      have h₁ := ih st'
      have h₂ := (bpeStep_lengths hst).2
      omega

/-! ## The claims -/

/-- C1: after initialization and after every completed merge step the
vocabulary satisfies `len(vocabulary) == 256 + len(special_tokens) +
len(merges)`, and a training run returns a vocabulary and merge list with
that same relation and `len(merges) ≤ vocab_size - 256 -
len(special_tokens)`, for every corpus segmentation, target size and
special-token list. -/
theorem c1_vocab_size_invariant (f : InputFile) (vs : Nat) (sp : List ByteStr)
    (hread : f.readable = true) (hvs : 256 + sp.length ≤ vs) :
    (∀ n, sizeInv sp (bpeLoop n (initState f.segments sp))) ∧
      ∃ v m, run_train_bpe f vs sp = .ok (v, m) ∧
        v.length = 256 + sp.length + m.length ∧
        m.length ≤ vs - 256 - sp.length := by
  constructor
  · intro n
    exact bpeLoop_sizeInv n (initState_sizeInv f.segments sp)
  · unfold run_train_bpe
    rw [if_neg (by omega), if_neg (by simp [hread])]
    refine ⟨_, _, rfl, ?_, ?_⟩
    · rw [List.enum_length]
      exact bpeLoop_sizeInv _ (initState_sizeInv f.segments sp)
    · have h₁ := bpeLoop_merges_le (vs - (initState f.segments sp).vocab.length)
        (initState f.segments sp)
      have h₂ := initState_vocab_length f.segments sp
      have h₃ : (initState f.segments sp).merges.length = 0 := rfl
      omega

theorem c1_witness :
    (∀ n, sizeInv [] (bpeLoop n (initState [] []))) ∧
      ∃ v m, run_train_bpe ⟨true, true, []⟩ 256 [] = .ok (v, m) ∧
        v.length = 256 + ([] : List ByteStr).length + m.length ∧
        m.length ≤ 256 - 256 - ([] : List ByteStr).length :=
  c1_vocab_size_invariant ⟨true, true, []⟩ 256 [] rfl (by simp)

/-- C2: training is deterministic — two runs on equal corpus, vocab size and
special tokens produce equal vocabularies and equal ordered merge lists (the
modelled core is a pure function of its inputs). -/
theorem c2_training_deterministic (f₁ f₂ : InputFile) (vs₁ vs₂ : Nat)
    (sp₁ sp₂ : List ByteStr) (hf : f₁ = f₂) (hvs : vs₁ = vs₂) (hsp : sp₁ = sp₂) :
    run_train_bpe f₁ vs₁ sp₁ = run_train_bpe f₂ vs₂ sp₂ := by
  rw [hf, hvs, hsp]

theorem c2_witness :
    run_train_bpe ⟨true, true, [([1, 2], 3)]⟩ 257 [] =
      run_train_bpe ⟨true, true, [([1, 2], 3)]⟩ 257 [] :=
  c2_training_deterministic _ _ _ _ _ _ rfl rfl rfl

lemma header_noNl : ∀ c ∈ strCodes "#version: 0.2", c ≠ 10 := by decide

lemma splitNl_nil : splitNl [] = [[]] := rfl

lemma splitNl_flatten_lines (ls : List PyStr) (h : ∀ l ∈ ls, ∀ c ∈ l, c ≠ 10) :
    splitNl ((ls.map (fun l => l ++ [10])).flatten) = ls ++ [[]] := by
  induction ls with
  | nil => exact splitNl_nil
  | cons l ls ih =>
    have hl := h l (List.mem_cons_self l ls)
    have hls := ih (fun x hx => h x (List.mem_cons_of_mem l hx))
    simp only [List.map_cons, List.flatten_cons, List.append_assoc, List.singleton_append]
    rw [splitNl_append_of_noNl l _ hl, hls]
    rfl

lemma merge_line_noNl (p : ByteStr × ByteStr) :
    ∀ c ∈ gpt2Encode p.1 ++ 32 :: gpt2Encode p.2, c ≠ 10 := by
  intro c hc
  rcases List.mem_append.mp hc with h | h
  · exact gpt2Encode_noNl p.1 c h
  · rcases List.mem_cons.mp h with rfl | h
    · omega
    · exact gpt2Encode_noNl p.2 c h

/-- C3: the merges file is exactly one fixed version-header line followed by
one line per merge in merge order, each line the two merged byte strings
through the byte-to-unicode table separated by a single space (the final
empty fragment reflects the trailing newline of the last line). -/
theorem c3_merges_file_format (vocab : List (Nat × ByteStr))
    (merges : List (ByteStr × ByteStr)) :
    splitNl (save_vocab_and_merges vocab merges).mergesTxt =
      strCodes "#version: 0.2" ::
        (merges.map (fun p => gpt2Encode p.1 ++ 32 :: gpt2Encode p.2) ++ [[]]) := by
  show splitNl (mergesTxtContent merges) = _
  unfold mergesTxtContent
  have hform : merges.map (fun p => gpt2Encode p.1 ++ 32 :: (gpt2Encode p.2 ++ [10]))
      = (merges.map (fun p => gpt2Encode p.1 ++ 32 :: gpt2Encode p.2)).map
          (fun l => l ++ [10]) := by
    rw [List.map_map]
    apply List.map_congr_left
    intro p _
    simp
  rw [List.append_assoc, List.singleton_append, splitNl_append_of_noNl _ _ header_noNl,
    hform, splitNl_flatten_lines]
  intro l hl
  obtain ⟨p, _, rfl⟩ := List.mem_map.mp hl
  exact merge_line_noNl p

/-- C4: the vocab.json dict maps each token id's decimal key to the token's
bytes mapped bytewise through the fixed byte-to-unicode table; that table is
injective on bytes and produces only printable code points, so the encoding
of byte strings is injective (lossless). -/
theorem c4_vocab_json_printable_lossless (vocab : List (Nat × ByteStr))
    (merges : List (ByteStr × ByteStr)) :
    ((save_vocab_and_merges vocab merges).vocabJson
        = vocab.map (fun kv => (pyStrOfNat kv.1, gpt2Encode kv.2))) ∧
      (∀ kv ∈ (save_vocab_and_merges vocab merges).vocabJson,
        ∀ c ∈ kv.2, printableCodePoint c) ∧
      Function.Injective gpt2ByteToUnicode ∧
      Function.Injective gpt2Encode := by
  refine ⟨rfl, ?_, gpt2ByteToUnicode_injective, gpt2Encode_injective⟩
  intro kv hkv c hc
  obtain ⟨ab, _, rfl⟩ := List.mem_map.mp hkv
  obtain ⟨b, _, rfl⟩ := List.mem_map.mp hc
  exact gpt2ByteToUnicode_printable b

/-- C5 counterexample: with empty byte strings in a merge pair, the written
line is a single space, the loader's `strip()` empties it and the
blank-line guard drops the record, so the round trip loses the merge. -/
theorem c5_roundtrip_counterexample :
    load_tokenizer (save_vocab_and_merges [] [([], [])]) ≠ some ([], [([], [])]) := by
  decide

/-- C5 (amended): the raw files round-trip exactly — for every vocabulary
and every merge list all of whose byte strings are non-empty,
`load_tokenizer` after `save_vocab_and_merges` returns the original
id-to-bytes mapping and the original ordered merge list. -/
theorem c5_raw_roundtrip (vocab : List (Nat × ByteStr))
    (merges : List (ByteStr × ByteStr)) (h : ∀ p ∈ merges, p.1 ≠ [] ∧ p.2 ≠ []) :
    load_tokenizer (save_vocab_and_merges vocab merges) = some (vocab, merges) := by
  have h₁ := mapM_parseVocabRawEntry vocab
  have h₂ := loadMergesRawLines_mergesRawLines merges h
  unfold load_tokenizer
  show ((vocabRawEntries vocab).mapM parseVocabRawEntry).bind
      (fun v => (loadMergesRawLines (mergesRawLines merges)).bind
        (fun m => some (v, m))) = some (vocab, merges)
  rw [h₁, h₂]
  rfl

theorem c5_witness :
    (∀ p ∈ [(([97] : ByteStr), ([98] : ByteStr))], p.1 ≠ [] ∧ p.2 ≠ []) ∧
      load_tokenizer (save_vocab_and_merges [(0, [97])] [([97], [98])]) =
        some ([(0, [97])], [([97], [98])]) :=
  ⟨by decide, c5_raw_roundtrip [(0, [97])] [([97], [98])] (by decide)⟩

/-- C6: a requested vocabulary size below `256 + len(special_tokens)` makes
`train_bpe_tokenizer` fail fatally with the configuration error raised
before any training work, not retried, with no output files written. -/
theorem c6_config_error (f : InputFile) (vs : Nat) (sp : List ByteStr)
    (hex : f.fileExists = true) (hvs : vs < 256 + sp.length) :
    train_bpe_tokenizer f vs sp =
      { outcome := .fatalTraining .configError
        runTrainInvoked := true
        filesWritten := none } := by
  unfold train_bpe_tokenizer run_train_bpe
  rw [hex]
  simp [hvs]

theorem c6_witness :
    train_bpe_tokenizer ⟨true, true, []⟩ 100 [] =
      { outcome := .fatalTraining .configError
        runTrainInvoked := true
        filesWritten := none } :=
  c6_config_error ⟨true, true, []⟩ 100 [] rfl (by simp)

/-- C7 counterexample: an input path that exists but is unreadable passes
the `exists()` check, so `run_train_bpe` IS invoked, against the claim that
it is never invoked for an unreadable-or-missing path. -/
theorem c7_counterexample :
    ((⟨true, false, []⟩ : InputFile).readable = false) ∧
      (train_bpe_tokenizer ⟨true, false, []⟩ 300 []).runTrainInvoked = true := by
  decide

/-- C7 (amended): for a missing corpus path, `train_bpe_tokenizer` exits
fatally before training — `run_train_bpe` is never invoked and no output is
written; for an existing but unreadable path the failure is still fatal with
no output files, but surfaces from inside the training call, which IS
invoked. -/
theorem c7_input_error (f : InputFile) (vs : Nat) (sp : List ByteStr) :
    (f.fileExists = false →
      train_bpe_tokenizer f vs sp =
        { outcome := .fatalInputMissing, runTrainInvoked := false, filesWritten := none }) ∧
      (f.fileExists = true → f.readable = false → 256 + sp.length ≤ vs →
        train_bpe_tokenizer f vs sp =
          { outcome := .fatalTraining .inputUnreadable
            runTrainInvoked := true
            filesWritten := none }) := by
  constructor
  · intro hmiss
    unfold train_bpe_tokenizer
    rw [hmiss]
    rfl
  · intro hex hread hvs
    unfold train_bpe_tokenizer run_train_bpe
    rw [hex, hread]
    simp [Nat.not_lt.mpr hvs]

theorem c7_witness :
    train_bpe_tokenizer ⟨false, true, []⟩ 300 [] =
      { outcome := .fatalInputMissing, runTrainInvoked := false, filesWritten := none } :=
  (c7_input_error ⟨false, true, []⟩ 300 []).1 rfl

lemma fix_vocab_entries (vocab : List (Nat × ByteStr)) :
    fix_vocab_json (vocabRawEntries vocab) = some (vocabGpt2Entries vocab) := by
  induction vocab with
  | nil => rfl
  | cons kv vocab ih =>
    simp only [vocabRawEntries, vocabGpt2Entries, List.map_cons, fix_vocab_json,
      List.mapM_cons, bytesFromHex_bytesHex, Option.map_some', Option.pure_def,
      Option.bind_eq_bind, Option.some_bind]
    rw [show (vocab.map fun kv => (pyStrOfNat kv.1, bytesHex kv.2)).mapM
        (fun kv => (bytesFromHex kv.2).map (fun tb => (kv.1, gpt2Encode tb)))
        = fix_vocab_json (vocabRawEntries vocab) from rfl]
    rw [show fix_vocab_json (vocabRawEntries vocab)
        = (vocabRawEntries vocab).mapM
            (fun kv => (bytesFromHex kv.2).map (fun tb => (kv.1, gpt2Encode tb))) from rfl]
    rw [show (vocabRawEntries vocab).mapM
        (fun kv => (bytesFromHex kv.2).map (fun tb => (kv.1, gpt2Encode tb)))
        = fix_vocab_json (vocabRawEntries vocab) from rfl, ih]
    rfl

/-- C8: the token-id-to-printable-string dict that `fix_vocab_json`
reconstructs from the raw hex vocabulary file equals the dict
`save_vocab_and_merges` writes directly to the GPT-2-format vocab.json for
the same vocabulary: same keys and same values, in the same order. -/
theorem c8_fix_vocab_matches_save (vocab : List (Nat × ByteStr))
    (merges : List (ByteStr × ByteStr)) :
    fix_vocab_json ((save_vocab_and_merges vocab merges).vocabRawJson) =
      some ((save_vocab_and_merges vocab merges).vocabJson) :=
  fix_vocab_entries vocab

/-- C9: on a non-empty vocabulary `analyze_vocab` returns the UTF-8 decoding
of a longest token (`none` exactly when that token is not valid UTF-8), and
a successful `train_bpe_tokenizer` run returns exactly this value as the
final element of its result. -/
theorem c9_analyze_vocab_longest (vocab : List (Nat × ByteStr)) (h : vocab ≠ []) :
    (∃ t ∈ vocab.map Prod.snd,
        (∀ u ∈ vocab.map Prod.snd, u.length ≤ t.length) ∧
          analyze_vocab vocab = utf8Decode t) ∧
      (∀ (f : InputFile) (vs : Nat) (sp : List ByteStr) v m d,
        (train_bpe_tokenizer f vs sp).outcome = .success v m d →
          d = analyze_vocab v) := by
  constructor
  · rcases vocab with _ | ⟨kv, rest⟩
    · exact absurd rfl h
    · refine ⟨pyMaxByLen kv.2 (rest.map Prod.snd), ?_, ?_, rfl⟩
      · rcases pyMaxByLen_mem kv.2 (rest.map Prod.snd) with hm | hm
        · rw [List.map_cons, hm]
          exact List.mem_cons_self _ _
        · rw [List.map_cons]
          exact List.mem_cons_of_mem _ hm
      · intro u hu
        rw [List.map_cons] at hu
        exact pyMaxByLen_le kv.2 (rest.map Prod.snd) u hu
  · intro f vs sp v m d hout
    unfold train_bpe_tokenizer at hout
    cases hfe : f.fileExists with
    | false =>
      rw [hfe] at hout
      simp at hout
    | true =>
      rw [hfe] at hout
      cases hrun : run_train_bpe f vs sp with
      | error e =>
        rw [hrun] at hout
        simp at hout
      | ok vm =>
        rw [hrun] at hout
        obtain ⟨v', m'⟩ := vm
        simp only [Bool.not_true, Bool.false_eq_true, if_false] at hout
        have hout' : RunOutcome.success v' m' (analyze_vocab v')
            = RunOutcome.success v m d := hout
        injection hout' with h₁ h₂ h₃
        rw [← h₃, h₁]

theorem c9_witness :
    (∃ t ∈ ([(0, ([97] : ByteStr))] : List (Nat × ByteStr)).map Prod.snd,
        (∀ u ∈ ([(0, ([97] : ByteStr))] : List (Nat × ByteStr)).map Prod.snd,
          u.length ≤ t.length) ∧
          analyze_vocab [(0, [97])] = utf8Decode t) ∧
      (∀ (f : InputFile) (vs : Nat) (sp : List ByteStr) v m d,
        (train_bpe_tokenizer f vs sp).outcome = .success v m d →
          d = analyze_vocab v) :=
  c9_analyze_vocab_longest [(0, [97])] (by decide)

/-- C10: the GPT-2-format vocab.json dict has exactly one entry per
vocabulary entry — its key list is the decimal strings of the token ids in
order, its size equals `len(vocab)`, and the keys are pairwise distinct —
regardless of whether two token byte strings encode to the same printable
string. -/
theorem c10_vocab_json_keys (vocab : List (Nat × ByteStr))
    (merges : List (ByteStr × ByteStr)) (hkeys : (vocab.map Prod.fst).Nodup) :
    ((save_vocab_and_merges vocab merges).vocabJson.map Prod.fst
        = vocab.map (fun kv => pyStrOfNat kv.1)) ∧
      (save_vocab_and_merges vocab merges).vocabJson.length = vocab.length ∧
      ((save_vocab_and_merges vocab merges).vocabJson.map Prod.fst).Nodup := by
  refine ⟨?_, ?_, ?_⟩
  · show (vocabGpt2Entries vocab).map Prod.fst = _
    unfold vocabGpt2Entries
    rw [List.map_map]
    rfl
  · show (vocabGpt2Entries vocab).length = _
    unfold vocabGpt2Entries
    rw [List.length_map]
  · show ((vocabGpt2Entries vocab).map Prod.fst).Nodup
    unfold vocabGpt2Entries
    rw [List.map_map]
    have hcomp : (Prod.fst ∘ fun kv : Nat × ByteStr => (pyStrOfNat kv.1, gpt2Encode kv.2))
        = pyStrOfNat ∘ Prod.fst := rfl
    rw [hcomp, ← List.map_map]
    exact hkeys.map pyStrOfNat_injective

theorem c10_witness :
    (((save_vocab_and_merges [(0, [97]), (1, [98])] []).vocabJson.map Prod.fst
        = ([(0, ([97] : ByteStr)), (1, [98])] : List (Nat × ByteStr)).map
            (fun kv => pyStrOfNat kv.1)) ∧
      (save_vocab_and_merges [(0, [97]), (1, [98])] []).vocabJson.length
        = ([(0, ([97] : ByteStr)), (1, [98])] : List (Nat × ByteStr)).length ∧
      ((save_vocab_and_merges [(0, [97]), (1, [98])] []).vocabJson.map Prod.fst).Nodup) :=
  c10_vocab_json_keys [(0, [97]), (1, [98])] [] (by decide)

end CS336
